import Mathlib

/-!
Verification development for the image-processor orchestration engine.

Each definition is a shallow embedding of the corresponding Go function or
type, translated directly from the source files (src/core/processor.go,
src/pipeline/steps.go, src/utils/streaming.go, src/config/config.go,
src/errors/errors.go).  Machine integers are modelled as Int (no overflow is
reachable in the modelled code paths), byte slices as List Nat, Go maps as
association lists held in an explicit heap (Go maps are reference values, so
an in-place map write must be observable through every alias), and context
cancellation as a Bool (the claims under study only involve contexts that are
either cancelled from the start or never cancelled).
-/

namespace ImageProc

/-! ## errors/errors.go -/

/-- Error category constants from errors/errors.go. -/
inductive ErrCategory where
  | decode | encode | pipeline | storage | config | transient | input
  deriving DecidableEq, Repr

/-- Sentinel and leaf error values.  The sentinel errors mirror the package
variables in errors/errors.go; `str` stands for any other plain Go error such
as fmt.Errorf output; `ctxCanceled` is context.Canceled from the Go runtime;
`ioEOF` and `ioUnexpectedEOF` are io.EOF and io.ErrUnexpectedEOF. -/
inductive BaseError where
  | emptyInput
  | unsupportedFormat
  | invalidDimensions
  | ctxCanceled
  | workerPoolFull
  | storageUnavailable
  | ioEOF
  | ioUnexpectedEOF
  | str (s : String)
  deriving DecidableEq, Repr

/-- Values of Go type `error` flowing through the engine: either a structured
ProcessingError from errors/errors.go (category, operation name, retryable
flag, wrapped error) or a plain error (for which errors.As fails). -/
inductive GoError where
  | procErr (category : ErrCategory) (op : String) (retryable : Bool) (err : GoError)
  | raw (b : BaseError)
  deriving DecidableEq, Repr

/-- New from errors/errors.go: a non-retryable ProcessingError. -/
def ErrNew (category : ErrCategory) (op : String) (err : GoError) : GoError :=
  .procErr category op false err

/-- Transient from errors/errors.go: a retryable transient ProcessingError. -/
def ErrTransient (op : String) (err : GoError) : GoError :=
  .procErr .transient op true err

/-- Wrap from errors/errors.go applied to a non-nil error (every modelled call
site guards on err being non-nil before calling Wrap). -/
def ErrWrap (category : ErrCategory) (op : String) (err : GoError) : GoError :=
  ErrNew category op err

/-- IsRetryable from errors/errors.go: errors.As finds the outermost
ProcessingError in the chain and reads its Retryable flag, otherwise false. -/
def IsRetryable : GoError → Bool
  | .procErr _ _ retryable _ => retryable
  | .raw _ => false

/-! ## core types (src/unnamed/part_000, Go package core) -/

/-- Format constants. -/
inductive Format where
  | jpeg | png | webp | unknown
  deriving DecidableEq, Repr

/-- ColorSpace constants. -/
inductive ColorSpace where
  | rgb | rgba | cmyk | gray | zero
  deriving DecidableEq, Repr

/-- Opaque decoded-pixel content.  The external image library calls
(NewRGBA + sampler.Scale, draw.Draw, NewGray, ...) are modelled freely: each
one produces a distinct constructor application recording its inputs, which is
all the orchestration code ever depends on (it never inspects pixels). -/
inductive PixContent where
  | decoded (tag : Nat)
  | scaled (src : PixContent) (w h : Int)
  | cropped (src : PixContent) (x y w h : Int)
  | grayed (src : PixContent)
  deriving DecidableEq, Repr

/-- Decoded image handle (the image.Image stored in ImageData.Image),
carrying its bounds rectangle and opaque pixel content. -/
structure ImageHandle where
  minX : Int
  minY : Int
  maxX : Int
  maxY : Int
  pix : PixContent
  deriving DecidableEq, Repr

/-- Dx of the bounds rectangle. -/
def ImageHandle.dx (h : ImageHandle) : Int := h.maxX - h.minX

/-- Dy of the bounds rectangle. -/
def ImageHandle.dy (h : ImageHandle) : Int := h.maxY - h.minY

/-- EXIF map content: a Go map[string]string modelled as an association list
(the engine never iterates EXIF maps, so ordering is unobservable). -/
abbrev ExifMap := List (String × String)

/-- Lookup in an EXIF map (Go `m[k]` with the comma-ok form). -/
def exifLookup (m : ExifMap) (k : String) : Option String :=
  (m.find? (fun p => p.1 = k)).map (fun p => p.2)

/-- Go map assignment `m[k] = v`: overwrite the binding if present, otherwise
append it. -/
def exifInsert (m : ExifMap) (k v : String) : ExifMap :=
  if m.any (fun p => p.1 = k) then
    m.map (fun p => if p.1 = k then (k, v) else p)
  else
    m ++ [(k, v)]

/-- Heap of live Go maps.  Go maps are reference values: a shallow struct copy
of Metadata copies the map header, not the contents, so two ImageData values
can alias the same map.  The heap makes that aliasing explicit — a map
reference is an index into this list. -/
structure Heap where
  maps : List ExifMap
  deriving DecidableEq, Repr

/-- Dereference a map. -/
def Heap.get (h : Heap) (r : Nat) : ExifMap := h.maps.getD r []

/-- Overwrite the contents of a live map (an in-place Go map write). -/
def Heap.set (h : Heap) (r : Nat) (m : ExifMap) : Heap := ⟨h.maps.set r m⟩

/-- Allocate a fresh map (Go `make(map[string]string)`), returning the new
heap and the reference. -/
def Heap.alloc (h : Heap) (m : ExifMap) : Heap × Nat :=
  (⟨h.maps ++ [m]⟩, h.maps.length)

/-- Metadata from the core package.  EXIF is a nullable map reference. -/
structure Metadata where
  Width : Int
  Height : Int
  Format : Format
  ColorSpace : ColorSpace
  HasAlpha : Bool
  SizeBytes : Int
  EXIF : Option Nat
  HasEXIF : Bool
  Orientation : Int
  deriving DecidableEq, Repr

/-- Go zero value of Metadata. -/
def Metadata.zero : Metadata :=
  { Width := 0, Height := 0, Format := .unknown, ColorSpace := .zero,
    HasAlpha := false, SizeBytes := 0, EXIF := none, HasEXIF := false,
    Orientation := 0 }

/-- ImageData from the core package.  Data holds encoded bytes (nil slice and
empty slice are not distinguished by any modelled code, so a plain list
suffices); Image is the decoded handle, none until a decode step runs. -/
structure ImageData where
  Data : List Nat
  Format : Format
  Image : Option ImageHandle
  Meta : Metadata
  OriginalSize : Int
  deriving DecidableEq, Repr

/-- The caller-observable EXIF contents of an ImageData value: the map its
EXIF reference points at, if any.  Two values sharing a reference observe the
same contents, which is exactly Go's aliasing of the shallow-copied map. -/
def exifView (h : Heap) (img : ImageData) : Option ExifMap :=
  img.Meta.EXIF.map h.get

/-- EncodeOptions from the core package. -/
structure EncodeOptions where
  Quality : Int
  Lossless : Bool
  StripEXIF : Bool
  Interlaced : Bool
  deriving DecidableEq, Repr

/-- Go zero value of EncodeOptions. -/
def EncodeOptions.zero : EncodeOptions :=
  { Quality := 0, Lossless := false, StripEXIF := false, Interlaced := false }

/-! ## utils (src/utils/streaming.go and src/config/config.go utils part) -/

/-- Truncation of a rational toward zero, the semantics of Go's `int(f)`
conversion from float64. -/
def ratTrunc (q : ℚ) : Int := q.num.tdiv q.den

/-- ScaleDimensions from the utils package.  The Go function computes the
dependent axis in float64 and converts with `int(...)`; the float64
arithmetic is modelled as exact rational arithmetic (every concrete instance
appearing in the claims is exactly representable in float64, so the model and
the float computation agree there), and `int(...)` as truncation toward
zero. -/
def ScaleDimensions (srcW srcH targetW targetH : Int) : Int × Int :=
  if targetW = 0 ∧ targetH = 0 then (srcW, srcH)
  else if targetW = 0 then
    let rt : ℚ := (targetH : ℚ) / (srcH : ℚ)
    (ratTrunc ((srcW : ℚ) * rt), targetH)
  else if targetH = 0 then
    let rt : ℚ := (targetW : ℚ) / (srcW : ℚ)
    (targetW, ratTrunc ((srcH : ℚ) * rt))
  else (targetW, targetH)

/-- DetectFormat from the utils package.  The trailing call to
http.DetectContentType can only report image/jpeg, image/png or image/webp on
byte prefixes that are strict extensions of the magic prefixes already tested
above it (its png and webp signatures are longer, its jpeg signature is
identical), so the fallback never classifies bytes the magic checks rejected
and is modelled as returning no image match. -/
def DetectFormat (data : List Nat) : Format :=
  if data.length < 4 then .unknown
  else if data.getD 0 0 = 0xFF ∧ data.getD 1 0 = 0xD8 ∧ data.getD 2 0 = 0xFF then .jpeg
  else if data.getD 0 0 = 0x89 ∧ data.getD 1 0 = 0x50 ∧ data.getD 2 0 = 0x4E ∧
          data.getD 3 0 = 0x47 then .png
  else if 12 ≤ data.length ∧
          data.getD 0 0 = 82 ∧ data.getD 1 0 = 73 ∧ data.getD 2 0 = 70 ∧
          data.getD 3 0 = 70 ∧ data.getD 8 0 = 87 ∧ data.getD 9 0 = 69 ∧
          data.getD 10 0 = 66 ∧ data.getD 11 0 = 80 then .webp
  else .unknown

/-- Errors produced by reader Read calls in the modelled code. -/
inductive ReadErr where
  | eof
  | unexpectedEOF
  deriving DecidableEq, Repr

/-- Reader values flowing through DrainReader: either a bytes.Reader over the
remaining bytes (the reader style used throughout the repository), or a
LimitedReader from utils/streaming.go wrapping an inner reader, carrying its
Max and its running count n. -/
inductive ReaderM where
  | bytes (data : List Nat)
  | limited (max : Int) (n : Int) (inner : ReaderM)
  deriving DecidableEq, Repr

/-- Read on a ReaderM with a buffer of length plen, returning the bytes read,
the error, and the advanced reader.

For `bytes`: bytes.Reader returns (0, io.EOF) when exhausted and otherwise
copies up to plen bytes with a nil error.

For `limited`: LimitedReader.Read from utils/streaming.go — if n >= Max and
Max > 0, fail with io.ErrUnexpectedEOF; if Max > 0, cap the buffer at the
remaining allowance; then read from the wrapped reader and add the count. -/
def ReaderM.read : ReaderM → Nat → List Nat × Option ReadErr × ReaderM
  | .bytes data, plen =>
    if data.isEmpty then ([], some .eof, .bytes [])
    else (data.take plen, none, .bytes (data.drop plen))
  | .limited max n inner, plen =>
    if max ≤ n ∧ 0 < max then ([], some .unexpectedEOF, .limited max n inner)
    else
      let plen2 := if 0 < max then min plen (max - n).toNat else plen
      let (out, e, inner2) := inner.read plen2
      (out, e, .limited max (n + out.length) inner2)

/-- Total bytes still deliverable by a reader, used only to size the fuel of
the drain loop. -/
def ReaderM.size : ReaderM → Nat
  | .bytes data => data.length
  | .limited _ _ inner => inner.size

/-- Loop body of DrainReader from utils/streaming.go.  Each iteration checks
the context, issues one Read of chunk bytes, appends whatever was read, stops
on io.EOF, and fails on any other error.  The fuel only bounds the iteration
count: with chunk ≥ 1 every iteration either delivers at least one byte,
stops or fails, so the fuel chosen by DrainReader is never exhausted. -/
def drainLoop (ctxDone : Bool) (chunk : Nat) :
    Nat → ReaderM → List Nat → Except GoError (List Nat)
  | 0, _, _ => .error (.raw (.str "drain fuel exhausted"))
  | fuel + 1, r, acc =>
    if ctxDone then .error (.raw .ctxCanceled)
    else
      let (out, e, r2) := r.read chunk
      let acc2 := acc ++ out
      match e with
      | some .eof => .ok acc2
      | some .unexpectedEOF => .error (.raw .ioUnexpectedEOF)
      | none => drainLoop ctxDone chunk fuel r2 acc2

/-- DrainReader from utils/streaming.go.  Buffer pooling is invisible to the
caller (the returned bytes are copied out via CloneBytes before the pool
buffer is released), so the pooled staging buffer is modelled away and the
result is the accumulated byte list. -/
def DrainReader (ctxDone : Bool) (r : ReaderM) (chunkSize : Int) :
    Except GoError (List Nat) :=
  let chunk := if chunkSize ≤ 0 then 32 * 1024 else chunkSize.toNat
  drainLoop ctxDone chunk (r.size + 2) r []

/-- CloneBytes from the utils package: a fresh copy of the bytes.  Lists have
value semantics, so the copy is the identity. -/
def CloneBytes (b : List Nat) : List Nat := b

/-! ## config/config.go -/

/-- Config from config/config.go, restricted to the fields the orchestration
code under study reads.  Durations (JobTimeout, RetryDelay), storage and
logging settings only affect wall-clock behaviour or unmodelled adapters. -/
structure Config where
  WorkerCount : Int
  QueueSize : Int
  MaxRetries : Int
  DefaultQuality : Int
  MaxImageBytes : Int
  ChunkSize : Int
  deriving DecidableEq, Repr

/-! ## core/processor.go -/

/-- Source from the core package: the underlying reader plus the optional
content-type hint (Name and Size hints are never read by Process). -/
structure SourceM where
  reader : ReaderM
  contentType : String
  deriving DecidableEq, Repr

/-- contentTypeToFormat from core/processor.go. -/
def contentTypeToFormat (ct : String) : Format :=
  if ct = "image/jpeg" ∨ ct = "image/jpg" then .jpeg
  else if ct = "image/png" then .png
  else if ct = "image/webp" then .webp
  else .unknown

/-- The (result, err) pair a Step's Execute returns in Go: a possibly-nil
ImageData pointer and a possibly-nil error. -/
abbrev ExecPair := Option ImageData × Option GoError

/-- A pipeline step as Process sees it: a name and an Execute function.  The
Nat argument numbers the Execute invocations made on the same input so that
steps whose behaviour changes across retry attempts (Go closures with captured
state) are expressible; a stateless step ignores it. -/
structure StepRM where
  name : String
  exec : Nat → Option ImageData → ExecPair

/-- Loop body of runWithRetry from core/processor.go.  `i` is the attempt
index, the second Nat is the number of loop iterations still permitted
(maxRetries - i + 1); the returned Nat counts the Execute invocations made.
On success or a non-retryable error the pair is returned at once; on a
retryable error with iterations remaining the retry wait runs — preempted by
context cancellation, in which case a wrapped cancellation error is returned —
and the loop continues; when iterations run out the last observed pair is
returned. -/
def retryLoop (ctxDone : Bool) (name : String) (exec : Nat → ExecPair) :
    Nat → Nat → ExecPair × Nat
  | _, 0 => ((none, none), 0)
  | i, rem + 1 =>
    let p := exec i
    match p.2 with
    | none => (p, 1)
    | some e =>
      if IsRetryable e then
        match rem with
        | 0 => (p, 1)
        | rem2 + 1 =>
          if ctxDone then
            ((none, some (ErrWrap .pipeline name (.raw .ctxCanceled))), 1)
          else
            let (p2, n) := retryLoop ctxDone name exec (i + 1) (rem2 + 1)
            (p2, n + 1)
      else (p, 1)

/-- runWithRetry from core/processor.go: run one step with the configured
retry budget.  With maxRetries ≥ 0 the loop runs at most maxRetries + 1 iterations;
a negative maxRetries allows none (the Go loop guard `i <= maxRetries` fails
immediately and the zero-valued pair (nil, nil) is returned). -/
def runWithRetry (maxRetries : Int) (ctxDone : Bool) (step : StepRM)
    (img : Option ImageData) : ExecPair × Nat :=
  retryLoop ctxDone step.name (fun i => step.exec i img) 0 (maxRetries + 1).toNat

/-- ProcessingResult from the core package, restricted to the Primary output.
ProcessingTime and StepTimings are wall-clock observations, MemoryUsedB is
never set, and Variants is populated only by ProcessVariants. -/
structure ProcessingResultM where
  Primary : Option ImageData
  deriving DecidableEq, Repr

/-- Step-loop phase of Process from core/processor.go, threading the current
ImageData through the steps.  The Int pair accumulates the (processedCount,
errorCount) increments Process performs: before each step a context check
failure or, after runWithRetry, a step error increments errorCount and aborts;
once every step has run processedCount is incremented.  Hook notifications
(notifyBefore and notifyAfter) only observe and are modelled away. -/
def runSteps (cfg : Config) (ctxDone : Bool) :
    List StepRM → Option ImageData → (Int × Int) × Except GoError (Option ImageData)
  | [], current => ((1, 0), .ok current)
  | step :: rest, current =>
    if ctxDone then ((0, 1), .error (ErrWrap .pipeline step.name (.raw .ctxCanceled)))
    else
      let p := (runWithRetry cfg.MaxRetries ctxDone step current).1
      match p.2 with
      | some e => ((0, 1), .error e)
      | none => runSteps cfg ctxDone rest p.1

/-- The reader Process drains: the source's reader, wrapped in a LimitedReader
when MaxImageBytes > 0. -/
def limitedReaderOf (cfg : Config) (src : SourceM) : ReaderM :=
  if 0 < cfg.MaxImageBytes then ReaderM.limited cfg.MaxImageBytes 0 src.reader
  else src.reader

/-- The initial ImageData Process builds from the drained bytes: the format
from the content-type hint when supplied and from magic-byte sniffing
otherwise, zero-valued metadata, and the raw length as OriginalSize. -/
def initImage (src : SourceM) (rawBytes : List Nat) : ImageData :=
  { Data := rawBytes,
    Format := if src.contentType ≠ "" then contentTypeToFormat src.contentType
      else DetectFormat rawBytes,
    Image := none, Meta := Metadata.zero, OriginalSize := rawBytes.length }

/-- Process from core/processor.go.  Returns the (processedCount, errorCount)
increments performed by this call alongside the result: an empty step list is
an input error; the source is drained through limitedReaderOf and a drain
failure is wrapped as a decode-category error; the format comes from
magic-byte sniffing unless a content-type hint is supplied; then the steps
run. -/
def Process (cfg : Config) (ctxDone : Bool) (src : SourceM) (steps : List StepRM) :
    (Int × Int) × Except GoError ProcessingResultM :=
  if steps.isEmpty then
    ((0, 0), .error (ErrNew .pipeline "process" (.raw .emptyInput)))
  else
    match DrainReader ctxDone (limitedReaderOf cfg src) cfg.ChunkSize with
    | .error e => ((0, 0), .error (ErrWrap .decode "process.drain" e))
    | .ok buf =>
      match runSteps cfg ctxDone steps (some (initImage src (CloneBytes buf))) with
      | (d, .error e) => (d, .error e)
      | (d, .ok current) => (d, .ok { Primary := current })

/-! ## core/processor.go worker pool and lifecycle -/

/-- A queued async job.  Only its identity matters to the Submit contract. -/
structure Job where
  id : String
  deriving DecidableEq, Repr

/-- Worker-pool face of the Processor struct: the buffered job-queue channel
(its buffer contents and capacity), the sync.Once guarding Start, the number
of live workers, and whether the shutdown channel has been closed. -/
structure PoolState where
  queue : List Job
  queueCap : Nat
  onceDone : Bool
  workers : Nat
  shutdownClosed : Bool
  deriving DecidableEq, Repr

/-- Queue capacity chosen by New in core/processor.go: cfg.QueueSize, or 256
when unset or non-positive. -/
def effQueueSize (cfg : Config) : Nat :=
  if cfg.QueueSize ≤ 0 then 256 else cfg.QueueSize.toNat

/-- Worker count chosen by Start in core/processor.go: cfg.WorkerCount, or
runtime.NumCPU() (the ambient available parallelism, passed in as numCPU)
when unset or non-positive. -/
def effWorkerCount (cfg : Config) (numCPU : Nat) : Nat :=
  if cfg.WorkerCount ≤ 0 then numCPU else cfg.WorkerCount.toNat

/-- Processor state as constructed by New in core/processor.go. -/
def PoolState.new (cfg : Config) : PoolState :=
  { queue := [], queueCap := effQueueSize cfg, onceDone := false,
    workers := 0, shutdownClosed := false }

/-- Submit from core/processor.go: a select with a default branch on the
buffered job-queue channel.  The non-blocking send succeeds exactly when the
buffer has free capacity; otherwise the default branch returns a
worker-pool-full error and nothing is enqueued. -/
def Submit (p : PoolState) (job : Job) : PoolState × Option GoError :=
  if p.queue.length < p.queueCap then
    ({ p with queue := p.queue ++ [job] }, none)
  else
    (p, some (ErrNew .pipeline "submit" (.raw .workerPoolFull)))

/-- Start from core/processor.go: sync.Once runs the launch closure the first
time only, spawning effWorkerCount workers. -/
def Start (cfg : Config) (numCPU : Nat) (p : PoolState) : PoolState :=
  if p.onceDone then p
  else { p with onceDone := true, workers := p.workers + effWorkerCount cfg numCPU }

/-- Stop from core/processor.go: it closes the shutdown channel and waits for
the workers to exit.  Closing an already-closed Go channel panics, which the
model renders as none; on the first call the workers all observe the closed
channel and return, so the wait completes. -/
def Stop (p : PoolState) : Option PoolState :=
  if p.shutdownClosed then none
  else some { p with shutdownClosed := true, workers := 0 }

/-! ## Batch (core/processor.go)

Batch pre-sizes two output slices and spawns one goroutine per input index;
goroutine idx writes its own Process output into slot idx and a WaitGroup
joins them all before Batch returns.  The scheduler's freedom is captured by
an explicit completion order: an arbitrary list of indices in which the
branches' writes land.  A slot state of none models a slot no branch has
written yet. -/

/-- The value branch idx computes and writes: its own Process call on source
idx (the counter increments are performed on shared atomics and are not part
of the written slot). -/
def batchBranch (cfg : Config) (ctxDone : Bool) (sources : List SourceM)
    (steps : List StepRM) (idx : Nat) : Except GoError ProcessingResultM :=
  (Process cfg ctxDone (sources.getD idx ⟨.bytes [], ""⟩) steps).2

/-- One branch's write into the pre-sized result area: branch idx overwrites
exactly slot idx with its own value.  Indices outside the source list have no
goroutine and write nothing. -/
def batchWrite (cfg : Config) (ctxDone : Bool) (sources : List SourceM)
    (steps : List StepRM) (acc : Nat → Option (Except GoError ProcessingResultM))
    (idx : Nat) : Nat → Option (Except GoError ProcessingResultM) :=
  if idx < sources.length then
    fun j => if j = idx then some (batchBranch cfg ctxDone sources steps idx) else acc j
  else acc

/-- The joint result area of Batch after all branches in `order` have
completed, as a map from slot index to its contents, starting from the
freshly allocated (all-empty) slices. -/
def BatchRun (cfg : Config) (ctxDone : Bool) (sources : List SourceM)
    (steps : List StepRM) (order : List Nat) :
    Nat → Option (Except GoError ProcessingResultM) :=
  order.foldl (batchWrite cfg ctxDone sources steps) (fun _ => none)

/-! ## fmt "%d" (Go standard library collaborator)

QualityStep writes the quality through fmt.Sprintf("%d", q) and EncodeStep
reads it back through fmt.Sscanf(qs, "%d", &q).  The decimal formatter and
scanner are modelled here: Sprintf prints an optional minus sign followed by
the decimal digits; Sscanf consumes an optional minus sign and the longest
leading digit run, leaves the target at its zero value when no digit is
found, and ignores trailing input. -/

/-- The character of a decimal digit. -/
def digitChar (d : Nat) : Char := Char.ofNat (48 + d)

/-- The value of a decimal digit character. -/
def digitVal (c : Char) : Option Nat :=
  if 48 ≤ c.toNat ∧ c.toNat ≤ 57 then some (c.toNat - 48) else none

/-- Decimal digits of n, least significant first; the structural fuel is a
strict upper bound on the digit count (the value shrinks by a factor of ten
per step), so it is never exhausted at the chosen call below. -/
def natDigitsRevF : Nat → Nat → List Nat
  | 0, _ => []
  | fuel + 1, n => if n < 10 then [n] else n % 10 :: natDigitsRevF fuel (n / 10)

/-- Decimal digits of n, least significant first. -/
def natDigitsRev (n : Nat) : List Nat := natDigitsRevF (n + 1) n

/-- Recompose a most-significant-first digit list. -/
def digitsToNat (ds : List Nat) : Nat := ds.foldl (fun a d => a * 10 + d) 0

/-- Sprintf with verb d: optional minus sign then decimal digits. -/
def sprintfD (q : Int) : String :=
  if q < 0 then String.mk ('-' :: ((natDigitsRev (-q).toNat).reverse.map digitChar))
  else String.mk ((natDigitsRev q.toNat).reverse.map digitChar)

/-- Split off the longest leading run of decimal digits. -/
def takeDigits : List Char → List Nat × List Char
  | [] => ([], [])
  | c :: cs =>
    match digitVal c with
    | some d => let (ds, r) := takeDigits cs; (d :: ds, r)
    | none => ([], c :: cs)

/-- Sscanf with verb d into a fresh int variable: an optional leading minus
sign, then the scanned value of the leading digit run, or 0 (the variable's
zero value) when the input has no digits to scan. -/
def sscanfD (s : String) : Int :=
  match s.data with
  | [] => 0
  | c :: cs =>
    if c = '-' then
      let p := takeDigits cs
      if p.1.isEmpty then 0 else -(digitsToNat p.1 : Int)
    else
      let p := takeDigits (c :: cs)
      if p.1.isEmpty then 0 else (digitsToNat p.1 : Int)

/-! ## pipeline/steps.go

Each built-in step's Execute is a function of the cancellation state, the map
heap and the input ImageData, returning the possibly-updated heap and either
the output ImageData or an error.  In the Go code the only mutable state
reachable from an ImageData is its EXIF map (byte slices are only ever
replaced, never written through, and pixel buffers are freshly allocated by
every transform), so the heap of EXIF maps is the entire mutable store. -/

/-- Rectangle canonicalisation of image.Rect: swaps the coordinates when
given in the wrong order. -/
def mkRect (x0 y0 x1 y1 : Int) : Int × Int × Int × Int :=
  let xs := if x1 < x0 then (x1, x0) else (x0, x1)
  let ys := if y1 < y0 then (y1, y0) else (y0, y1)
  (xs.1, ys.1, xs.2, ys.2)

/-- Rectangle emptiness, image.Rectangle.Empty. -/
def rectEmpty (minX minY maxX maxY : Int) : Bool :=
  maxX ≤ minX ∨ maxY ≤ minY

/-- image.Rectangle.In: every point of r lies in s (vacuously true for an
empty r). -/
def rectIn (rMinX rMinY rMaxX rMaxY sMinX sMinY sMaxX sMaxY : Int) : Bool :=
  if rectEmpty rMinX rMinY rMaxX rMaxY then true
  else sMinX ≤ rMinX ∧ rMaxX ≤ sMaxX ∧ sMinY ≤ rMinY ∧ rMaxY ≤ sMaxY

/-- ResizeStep from pipeline/steps.go.  The Resampler field only selects the
interpolation kernel, which affects pixel values alone and is absorbed into
the opaque scaled pixel content. -/
structure ResizeStep where
  Width : Int
  Height : Int
  deriving DecidableEq, Repr

/-- ResizeStep.Execute: context check, decoded-image requirement, dimension
scaling, no-op when the target equals the source size, invalid-dimension
error, otherwise a freshly allocated scaled image and updated metadata. -/
def ResizeStep.Execute (s : ResizeStep) (ctxDone : Bool) (h : Heap) (img : ImageData) :
    Heap × Except GoError ImageData :=
  if ctxDone then (h, .error (ErrWrap .pipeline "resize" (.raw .ctxCanceled)))
  else
    match img.Image with
    | none => (h, .error (ErrNew .pipeline "resize" (.raw .emptyInput)))
    | some src =>
      let d := ScaleDimensions src.dx src.dy s.Width s.Height
      if d.1 = src.dx ∧ d.2 = src.dy then (h, .ok img)
      else if d.1 ≤ 0 ∨ d.2 ≤ 0 then
        (h, .error (ErrNew .pipeline "resize" (.raw .invalidDimensions)))
      else
        (h, .ok { img with
          Image := some ⟨0, 0, d.1, d.2, .scaled src.pix d.1 d.2⟩,
          Meta := { img.Meta with Width := d.1, Height := d.2 } })

/-- CropStep from pipeline/steps.go. -/
structure CropStep where
  X : Int
  Y : Int
  Width : Int
  Height : Int
  deriving DecidableEq, Repr

/-- CropStep.Execute: context check, decoded-image requirement, bounds check
of the crop rectangle, freshly allocated cropped image, updated metadata. -/
def CropStep.Execute (s : CropStep) (ctxDone : Bool) (h : Heap) (img : ImageData) :
    Heap × Except GoError ImageData :=
  if ctxDone then (h, .error (ErrWrap .pipeline "crop" (.raw .ctxCanceled)))
  else
    match img.Image with
    | none => (h, .error (ErrNew .pipeline "crop" (.raw .emptyInput)))
    | some src =>
      let r := mkRect s.X s.Y (s.X + s.Width) (s.Y + s.Height)
      if rectIn r.1 r.2.1 r.2.2.1 r.2.2.2 src.minX src.minY src.maxX src.maxY then
        let db := mkRect 0 0 s.Width s.Height
        (h, .ok { img with
          Image := some ⟨db.1, db.2.1, db.2.2.1, db.2.2.2,
            .cropped src.pix s.X s.Y s.Width s.Height⟩,
          Meta := { img.Meta with Width := s.Width, Height := s.Height } })
      else
        (h, .error (ErrNew .pipeline "crop" (.raw (.str "crop rect exceeds image bounds"))))

/-- FormatStep from pipeline/steps.go. -/
structure FormatStep where
  Format : Format
  deriving DecidableEq, Repr

/-- FormatStep.Execute: shallow copy with the format fields replaced. -/
def FormatStep.Execute (s : FormatStep) (_ctxDone : Bool) (h : Heap) (img : ImageData) :
    Heap × Except GoError ImageData :=
  (h, .ok { img with Format := s.Format, Meta := { img.Meta with Format := s.Format } })

/-- QualityStep from pipeline/steps.go. -/
structure QualityStep where
  Quality : Int
  deriving DecidableEq, Repr

/-- QualityStep.Execute: shallow copy of the ImageData; when the copied EXIF
reference is nil a fresh map is allocated into the copy, otherwise the write
goes through the copied reference — which is the very map the caller's value
still points at. -/
def QualityStep.Execute (s : QualityStep) (_ctxDone : Bool) (h : Heap) (img : ImageData) :
    Heap × Except GoError ImageData :=
  match img.Meta.EXIF with
  | none =>
    let a := h.alloc []
    let h2 := a.1.set a.2 (exifInsert [] "_quality" (sprintfD s.Quality))
    (h2, .ok { img with Meta := { img.Meta with EXIF := some a.2 } })
  | some r =>
    (h.set r (exifInsert (h.get r) "_quality" (sprintfD s.Quality)), .ok img)

/-- StripEXIFStep from pipeline/steps.go. -/
structure StripEXIFStep where
  deriving DecidableEq, Repr

/-- StripEXIFStep.Execute: shallow copy with the EXIF fields cleared (the map
itself is not touched, only the copy's reference to it). -/
def StripEXIFStep.Execute (_s : StripEXIFStep) (_ctxDone : Bool) (h : Heap) (img : ImageData) :
    Heap × Except GoError ImageData :=
  (h, .ok { img with Meta :=
    { img.Meta with EXIF := none, HasEXIF := false, Orientation := 0 } })

/-- GrayscaleStep from pipeline/steps.go. -/
structure GrayscaleStep where
  deriving DecidableEq, Repr

/-- GrayscaleStep.Execute: decoded-image requirement, freshly allocated gray
image over the same bounds, color space updated. -/
def GrayscaleStep.Execute (_s : GrayscaleStep) (_ctxDone : Bool) (h : Heap) (img : ImageData) :
    Heap × Except GoError ImageData :=
  match img.Image with
  | none => (h, .error (ErrNew .pipeline "grayscale" (.raw .emptyInput)))
  | some src =>
    (h, .ok { img with
      Image := some ⟨src.minX, src.minY, src.maxX, src.maxY, .grayed src.pix⟩,
      Meta := { img.Meta with ColorSpace := .gray } })

/-- An encoder as the core.Encoder interface exposes it: Encode takes the
cancellation state, the image and the options and returns bytes or an
error. -/
abbrev EncoderM := Bool → ImageData → EncodeOptions → Except GoError (List Nat)

/-- A registry as EncodeStep and AdaptiveCompressStep consume it: EncoderFor
with its comma-ok result. -/
abbrev RegistryM := Format → Option EncoderM

/-- An encoder that never fails, used to observe which options a step passes
to Encode. -/
def pureEnc (f : ImageData → EncodeOptions → List Nat) : EncoderM :=
  fun _ img opts => .ok (f img opts)

/-- EncodeStep from pipeline/steps.go. -/
structure EncodeStep where
  Registry : RegistryM
  BaseOptions : EncodeOptions

/-- EncodeStep.Execute: encoder lookup, quality override read from the
"_quality" EXIF tag when present (scanned with fmt.Sscanf), encoding, and a
shallow copy carrying the encoded bytes and their size. -/
def EncodeStep.Execute (s : EncodeStep) (ctxDone : Bool) (h : Heap) (img : ImageData) :
    Heap × Except GoError ImageData :=
  match s.Registry img.Format with
  | none => (h, .error (ErrNew .encode "encode" (.raw .unsupportedFormat)))
  | some enc =>
    let opts :=
      match img.Meta.EXIF with
      | none => s.BaseOptions
      | some r =>
        match exifLookup (h.get r) "_quality" with
        | some qs => { s.BaseOptions with Quality := sscanfD qs }
        | none => s.BaseOptions
    match enc ctxDone img opts with
    | .error e => (h, .error e)
    | .ok data =>
      (h, .ok { img with
        Data := data,
        Meta := { img.Meta with SizeBytes := data.length } })

/-- AdaptiveCompressStep from pipeline/steps.go. -/
structure AdaptiveCompressStep where
  Registry : RegistryM
  TargetSizeBytes : Int
  MinQuality : Int
  MaxQuality : Int
  StepSize : Int

/-- Quality-scan loop of AdaptiveCompressStep.Execute.  `stepM1 + 1` is the
effective step size (the code forces it positive, which also bounds the
loop).  Returns the list of qualities at which Encode was invoked — one
invocation per listed quality, in order — together with the loop outcome:
an error, or the running best bytes (none when the loop body never ran). -/
def adaptiveLoop (ctxDone : Bool) (enc : Int → Except GoError (List Nat))
    (target minQ : Int) (stepM1 : Nat) (q : Int) :
    List Int × Except GoError (Option (List Nat)) :=
  if _hq : minQ ≤ q then
    if ctxDone then
      ([], .error (ErrWrap .pipeline "adaptive_compress" (.raw .ctxCanceled)))
    else
      match enc q with
      | .error e => ([q], .error e)
      | .ok data =>
        if (data.length : Int) ≤ target then ([q], .ok (some data))
        else
          let r := adaptiveLoop ctxDone enc target minQ stepM1 (q - (stepM1 + 1))
          (q :: r.1,
            match r.2 with
            | .ok none => .ok (some data)
            | .ok (some b) => .ok (some b)
            | .error e => .error e)
  else ([], .ok none)
termination_by (q + 1 - minQ).toNat
decreasing_by simp_wf; omega

/-- The effective quality floor: MinQuality when positive, else
MaxQuality - 1 (so that exactly one candidate is scanned). -/
def effMinQ (s : AdaptiveCompressStep) : Int :=
  if 0 < s.MinQuality then s.MinQuality else s.MaxQuality - 1

/-- The effective quality decrement: StepSize, or 5 when non-positive. -/
def effStepSize (s : AdaptiveCompressStep) : Int :=
  if s.StepSize ≤ 0 then 5 else s.StepSize

/-- AdaptiveCompressStep.Execute: passthrough on a non-positive target or a
missing encoder; otherwise scan qualities downward from MaxQuality to the
effective floor in effective steps, and return a shallow copy carrying the
best bytes. -/
def AdaptiveCompressStep.Execute (s : AdaptiveCompressStep) (ctxDone : Bool)
    (h : Heap) (img : ImageData) : Heap × Except GoError ImageData :=
  if s.TargetSizeBytes ≤ 0 then (h, .ok img)
  else
    match s.Registry img.Format with
    | none => (h, .ok img)
    | some enc =>
      let r := adaptiveLoop ctxDone
        (fun q => enc ctxDone img { EncodeOptions.zero with Quality := q })
        s.TargetSizeBytes (effMinQ s) ((effStepSize s).toNat - 1) s.MaxQuality
      match r.2 with
      | .error e => (h, .error e)
      | .ok best =>
        let bytes := best.getD []
        (h, .ok { img with
          Data := bytes,
          Meta := { img.Meta with SizeBytes := bytes.length } })

/-! ## Specification-side descriptions of the adaptive scan (from the claim
wording, to be related to the loop from the source) -/

/-- Candidate qualities the adaptive scan visits when nothing meets the
target: from q downward in steps of stepM1 + 1 while at or above the
floor. -/
def qualityScan (minQ : Int) (stepM1 : Nat) (q : Int) : List Int :=
  if h : minQ ≤ q then q :: qualityScan minQ stepM1 (q - (stepM1 + 1)) else []
termination_by (q + 1 - minQ).toNat
decreasing_by simp_wf; omega

/-- The prefix of the candidates a scan actually tries: everything up to and
including the first hit. -/
def triedUntilHit (hit : Int → Bool) : List Int → List Int
  | [] => []
  | q :: qs => if hit q then [q] else q :: triedUntilHit hit qs

/-- Whether the encoder output at a candidate quality meets the target. -/
def compressHit (s : AdaptiveCompressStep) (f : ImageData → EncodeOptions → List Nat)
    (img : ImageData) : Int → Bool :=
  fun q =>
    decide (((f img { EncodeOptions.zero with Quality := q }).length : Int) ≤
      s.TargetSizeBytes)

/-- The candidate qualities the step tries, in order, one encode each. -/
def compressTried (s : AdaptiveCompressStep) (f : ImageData → EncodeOptions → List Nat)
    (img : ImageData) : List Int :=
  triedUntilHit (compressHit s f img)
    (qualityScan (effMinQ s) ((effStepSize s).toNat - 1) s.MaxQuality)

/-- The bytes the step keeps: those of the last candidate tried (the first
hit, or the final candidate at or above the floor), and the nil slice when no
candidate was tried at all. -/
def compressBest (s : AdaptiveCompressStep) (f : ImageData → EncodeOptions → List Nat)
    (img : ImageData) : List Nat :=
  ((compressTried s f img).getLast?.map
    (fun q => f img { EncodeOptions.zero with Quality := q })).getD []

/-! ## Concrete example values used by witnesses and counterexamples -/

/-- Config used by the concrete lifecycle examples. -/
def cfgLifeEx : Config :=
  { WorkerCount := 2, QueueSize := 4, MaxRetries := 0, DefaultQuality := 85,
    MaxImageBytes := 0, ChunkSize := 0 }

/-- Heap with one live EXIF map at reference 0, holding one tag. -/
def exifHeapEx : Heap := ⟨[[("Make", "X")]]⟩

/-- ImageData whose metadata points at the live EXIF map of exifHeapEx. -/
def imgExifEx : ImageData :=
  { Data := [], Format := .jpeg, Image := none,
    Meta := { Metadata.zero with EXIF := some 0, HasEXIF := true },
    OriginalSize := 0 }

/-- A step that fails with the same transient (retryable) error on every
attempt. -/
def stepAlwaysTransient : StepRM :=
  ⟨"flaky", fun _ _ => (none, some (ErrTransient "flaky" (.raw (.str "boom"))))⟩

/-- A step that passes its input through unchanged and never fails. -/
def procNoopStep : StepRM := ⟨"noop", fun _ cur => (cur, none)⟩

/-- Source used by the Batch witness at index 0. -/
def srcExA : SourceM := ⟨.bytes [1], ""⟩

/-- Source used by the Batch witness at index 1. -/
def srcExB : SourceM := ⟨.bytes [2], ""⟩

/-- ImageData already tagged jpeg, as the adaptive-compression witness input. -/
def imgJpegEx : ImageData :=
  { Data := [], Format := .jpeg, Image := none, Meta := Metadata.zero,
    OriginalSize := 0 }

/-- Encoder whose output size is ten bytes per quality point. -/
def encFnEx : ImageData → EncodeOptions → List Nat :=
  fun _ opts => List.replicate (opts.Quality.toNat * 10) 0

/-- Adaptive step over an empty registry. -/
def acsNoneEx : AdaptiveCompressStep :=
  { Registry := fun _ => none, TargetSizeBytes := 50, MinQuality := 40,
    MaxQuality := 92, StepSize := 5 }

/-- Adaptive step whose registry serves exactly jpeg with encFnEx. -/
def acsPureEx : AdaptiveCompressStep :=
  { Registry := fun fm => if fm = .jpeg then some (pureEnc encFnEx) else none,
    TargetSizeBytes := 50, MinQuality := 40, MaxQuality := 92, StepSize := 5 }

/-- Registry serving exactly jpeg with the ten-bytes-per-quality encoder. -/
def regJpegEx : RegistryM :=
  fun fm => if fm = .jpeg then some (pureEnc encFnEx) else none

/-! # Theorems -/

/-- Truncation toward zero agrees with the floor on nonnegative rationals. -/
theorem ratTrunc_eq_floor (q : ℚ) (hq : 0 ≤ q) : ratTrunc q = ⌊q⌋ := by
  rw [ratTrunc, Rat.floor_def, Int.tdiv_eq_ediv (Rat.num_nonneg.mpr hq) (by positivity)]

/-- C3: with the job queue at capacity, Submit fails immediately with a
worker-pool-full error and leaves the queue untouched; with free capacity it
enqueues the job at the back and returns no error.  Both cases are single
equations on the resulting state, so no retry and no silent drop is
possible. -/
theorem submit_backpressure (p : PoolState) (job : Job) :
    (p.queue.length = p.queueCap →
      Submit p job = (p, some (ErrNew .pipeline "submit" (.raw .workerPoolFull)))) ∧
    (p.queue.length < p.queueCap →
      Submit p job = ({ p with queue := p.queue ++ [job] }, none)) := by
  constructor
  · intro hfull
    simp [Submit, hfull]
  · intro hfree
    simp [Submit, hfree]

/-- Witness for C3 at a two-slot queue: full rejects, non-full appends. -/
theorem submit_backpressure_witness :
    Submit { queue := [⟨"a"⟩, ⟨"b"⟩], queueCap := 2, onceDone := true,
             workers := 1, shutdownClosed := false } ⟨"j1"⟩ =
      ({ queue := [⟨"a"⟩, ⟨"b"⟩], queueCap := 2, onceDone := true,
         workers := 1, shutdownClosed := false },
       some (ErrNew .pipeline "submit" (.raw .workerPoolFull))) ∧
    Submit { queue := [⟨"a"⟩], queueCap := 2, onceDone := true,
             workers := 1, shutdownClosed := false } ⟨"j1"⟩ =
      ({ queue := [Job.mk "a", Job.mk "j1"], queueCap := 2, onceDone := true,
         workers := 1, shutdownClosed := false }, none) :=
  ⟨(submit_backpressure _ _).1 rfl, (submit_backpressure _ _).2 (by decide)⟩

/-- C7 counterexample: after Start, the first Stop succeeds but a second Stop
call closes an already-closed channel, a Go panic — not the safe no-op the
claim asserts. -/
theorem stop_second_call_panics_cex :
    Stop (Start cfgLifeEx 4 (PoolState.new cfgLifeEx)) =
      some { queue := [], queueCap := 4, onceDone := true, workers := 0,
             shutdownClosed := true } ∧
    Stop { queue := [], queueCap := 4, onceDone := true, workers := 0,
           shutdownClosed := true } = none := by
  constructor <;> rfl

/-- C7 amended: Start is idempotent and launches exactly the effective worker
count (the configured count, or the ambient parallelism when unset) exactly
once; Stop is not idempotent — the first call on a running processor succeeds
but any Stop call on an already-stopped processor panics. -/
theorem start_stop_lifecycle (cfg : Config) (numCPU : Nat) (p : PoolState) :
    Start cfg numCPU (Start cfg numCPU p) = Start cfg numCPU p ∧
    (Start cfg numCPU (PoolState.new cfg)).workers = effWorkerCount cfg numCPU ∧
    (cfg.WorkerCount ≤ 0 → effWorkerCount cfg numCPU = numCPU) ∧
    (¬ p.shutdownClosed →
      Stop p = some { p with shutdownClosed := true, workers := 0 }) ∧
    (∀ p2, Stop p = some p2 → Stop p2 = none) := by
  refine ⟨?_, ?_, ?_, ?_, ?_⟩
  · by_cases ho : p.onceDone <;> simp [Start, ho]
  · simp [Start, PoolState.new]
  · intro hwc
    simp [effWorkerCount, hwc]
  · intro hs
    simp [Stop, hs]
  · intro p2 h2
    by_cases hs : p.shutdownClosed
    · simp [Stop, hs] at h2
    · simp [Stop, hs] at h2
      simp [Stop, ← h2]

/-- Witness for C7 amended at a concrete config and fresh state. -/
theorem start_stop_lifecycle_witness :
    ¬ (PoolState.new cfgLifeEx).shutdownClosed ∧
    Stop (PoolState.new cfgLifeEx) =
      some { PoolState.new cfgLifeEx with shutdownClosed := true, workers := 0 } :=
  ⟨by decide, (start_stop_lifecycle cfgLifeEx 4 (PoolState.new cfgLifeEx)).2.2.2.1 (by decide)⟩

/-- C9 counterexample: the code truncates the aspect-preserving axis while the
claim says it rounds.  At source 2x3 with target width 1 the exact value is
3/2: the code yields height 1, rounding would yield 2. -/
theorem scaleDimensions_truncation_cex :
    ScaleDimensions 2 3 1 0 = (1, 1) ∧
    ScaleDimensions 2 3 1 0 ≠ (1, round (((3 * 1 : Int) : ℚ) / ((2 : Int) : ℚ))) := by
  have h1 : ScaleDimensions 2 3 1 0 = (1, 1) := by
    simp only [ScaleDimensions]
    norm_num
    rw [ratTrunc_eq_floor _ (by norm_num)]
    norm_num
  have h2 : round (((3 * 1 : Int) : ℚ) / ((2 : Int) : ℚ)) = 2 := by
    norm_num [round_eq]
  refine ⟨h1, ?_⟩
  rw [h1, h2]
  decide

/-- C9 amended: for positive source dimensions, a zero axis is computed from
the other by the aspect ratio and truncated toward zero (not rounded; the
model of the float64 computation is exact rational arithmetic), (0,0) is a
no-op, two nonzero axes are returned as given, and the claim's four concrete
examples hold (they are all exact, so truncation and rounding agree). -/
theorem scaleDimensions_spec (srcW srcH tW tH : Int) (hw : 0 < srcW) (hh : 0 < srcH) :
    ScaleDimensions srcW srcH 0 0 = (srcW, srcH) ∧
    (tW ≠ 0 → ScaleDimensions srcW srcH tW 0 =
      (tW, ratTrunc (((srcH * tW : Int) : ℚ) / ((srcW : Int) : ℚ)))) ∧
    (tH ≠ 0 → ScaleDimensions srcW srcH 0 tH =
      (ratTrunc (((srcW * tH : Int) : ℚ) / ((srcH : Int) : ℚ)), tH)) ∧
    (tW ≠ 0 → tH ≠ 0 → ScaleDimensions srcW srcH tW tH = (tW, tH)) ∧
    ScaleDimensions 800 600 400 0 = (400, 300) ∧
    ScaleDimensions 800 600 0 300 = (400, 300) ∧
    ScaleDimensions 800 600 200 200 = (200, 200) ∧
    ScaleDimensions 800 600 0 0 = (800, 600) := by
  have hw0 : (srcW : ℚ) ≠ 0 := Int.cast_ne_zero.mpr (by omega)
  have hh0 : (srcH : ℚ) ≠ 0 := Int.cast_ne_zero.mpr (by omega)
  refine ⟨?_, ?_, ?_, ?_, ?_, ?_, ?_, ?_⟩
  · simp [ScaleDimensions]
  · intro htW
    have harg : (srcH : ℚ) * ((tW : ℚ) / (srcW : ℚ)) =
        ((srcH * tW : Int) : ℚ) / ((srcW : Int) : ℚ) := by
      push_cast
      ring
    simp only [ScaleDimensions]
    rw [if_neg (fun hcon => htW hcon.1), if_neg htW]
    simp [harg]
  · intro htH
    have harg : (srcW : ℚ) * ((tH : ℚ) / (srcH : ℚ)) =
        ((srcW * tH : Int) : ℚ) / ((srcH : Int) : ℚ) := by
      push_cast
      ring
    simp only [ScaleDimensions]
    rw [if_neg (fun hcon => htH hcon.2)]
    simp [harg]
  · intro htW htH
    simp only [ScaleDimensions]
    rw [if_neg (fun hcon => htW hcon.1), if_neg htW, if_neg htH]
  · simp only [ScaleDimensions]
    norm_num
    rw [ratTrunc_eq_floor _ (by norm_num)]
    norm_num
  · simp only [ScaleDimensions]
    norm_num
    rw [ratTrunc_eq_floor _ (by norm_num)]
    norm_num
  · simp [ScaleDimensions]
  · simp [ScaleDimensions]

/-- Witness for C9 amended at source 800x600 with targets (400,0) and
(400,300). -/
theorem scaleDimensions_spec_witness :
    ScaleDimensions 800 600 400 0 =
      (400, ratTrunc (((600 * 400 : Int) : ℚ) / ((800 : Int) : ℚ))) ∧
    ScaleDimensions 800 600 400 300 = (400, 300) :=
  ⟨(scaleDimensions_spec 800 600 400 300 (by norm_num) (by norm_num)).2.1 (by norm_num),
   (scaleDimensions_spec 800 600 400 300 (by norm_num) (by norm_num)).2.2.2.1
     (by norm_num) (by norm_num)⟩

/-- C6: a source of exactly MaxImageBytes bytes fails the drain with
io.ErrUnexpectedEOF — the read that discovers EOF is pre-empted by the
`n >= Max` check — although the claim (and the LimitedReader doc comment)
promise success whenever the total size is at most the ceiling.  A source
strictly under the ceiling drains fully; one over the ceiling fails closed
without surrendering any bytes, as claimed.  The last conjunct shows the boundary
failure surfacing from Process itself. -/
theorem drain_ceiling_boundary_bug :
    DrainReader false (.limited 4 0 (.bytes [1, 2, 3, 4])) 2 =
      .error (.raw .ioUnexpectedEOF) ∧
    DrainReader false (.limited 5 0 (.bytes [1, 2, 3, 4])) 2 = .ok [1, 2, 3, 4] ∧
    DrainReader false (.limited 4 0 (.bytes [1, 2, 3, 4, 5, 6])) 2 =
      .error (.raw .ioUnexpectedEOF) ∧
    Process { WorkerCount := 1, QueueSize := 1, MaxRetries := 0, DefaultQuality := 85,
              MaxImageBytes := 4, ChunkSize := 2 } false ⟨.bytes [1, 2, 3, 4], ""⟩
        [⟨"noop", fun _ cur => (cur, none)⟩] =
      ((0, 0), .error (ErrWrap .decode "process.drain" (.raw .ioUnexpectedEOF))) :=
  ⟨rfl, rfl, rfl, rfl⟩

/-- C4: every built-in step except QualityStep leaves the map heap — the only
mutable state reachable from an ImageData — untouched, for every input; but
QualityStep.Execute on an input whose EXIF map is non-nil writes the
"_quality" key through the shallow-copied map reference, so the caller's own
value observes new EXIF contents afterwards: the in-place mutation the
invariant forbids. -/
theorem builtin_steps_exif_mutation (rs : ResizeStep) (cs : CropStep)
    (fs : FormatStep) (ts : StripEXIFStep) (gs : GrayscaleStep) (es : EncodeStep)
    (acs : AdaptiveCompressStep) (ctxDone : Bool) (h : Heap) (img : ImageData) :
    ((rs.Execute ctxDone h img).1 = h ∧
     (cs.Execute ctxDone h img).1 = h ∧
     (fs.Execute ctxDone h img).1 = h ∧
     (ts.Execute ctxDone h img).1 = h ∧
     (gs.Execute ctxDone h img).1 = h ∧
     (es.Execute ctxDone h img).1 = h ∧
     (acs.Execute ctxDone h img).1 = h) ∧
    exifView (QualityStep.Execute ⟨80⟩ false exifHeapEx imgExifEx).1 imgExifEx ≠
      exifView exifHeapEx imgExifEx := by
  refine ⟨⟨?_, ?_, ?_, ?_, ?_, ?_, ?_⟩, by decide⟩
  · unfold ResizeStep.Execute
    repeat first | rfl | split | dsimp only
  · unfold CropStep.Execute
    repeat first | rfl | split | dsimp only
  · unfold FormatStep.Execute
    rfl
  · unfold StripEXIFStep.Execute
    rfl
  · unfold GrayscaleStep.Execute
    repeat first | rfl | split | dsimp only
  · unfold EncodeStep.Execute
    repeat first | rfl | split | dsimp only
  · unfold AdaptiveCompressStep.Execute
    repeat first | rfl | split | dsimp only

/-- Helper for C1: when every attempt fails retryably (and the context stays
live), the retry loop runs all permitted iterations and returns the last
attempt's pair, having invoked Execute once per iteration. -/
theorem retryLoop_all_retryable (name : String) (exec : Nat → ExecPair)
    (hall : ∀ j, ∃ e, (exec j).2 = some e ∧ IsRetryable e = true) :
    ∀ rem i, retryLoop false name exec i (rem + 1) = (exec (i + rem), rem + 1) := by
  intro rem
  induction rem with
  | zero =>
    intro i
    obtain ⟨e, he, hr⟩ := hall i
    rw [retryLoop.eq_def]
    dsimp only
    rw [he]
    simp [hr]
  | succ rem2 ih =>
    intro i
    obtain ⟨e, he, hr⟩ := hall i
    rw [retryLoop.eq_def]
    dsimp only
    rw [he]
    simp only [hr, if_true]
    rw [ih (i + 1)]
    have harith : i + 1 + rem2 = i + (rem2 + 1) := by omega
    rw [harith]
    rfl

/-- Helper for C1: when attempts i..i+k-1 fail retryably and attempt i+k
stops the loop (success, or a non-retryable error), the loop returns attempt
i+k's pair after exactly k+1 Execute invocations. -/
theorem retryLoop_stops_at (name : String) (exec : Nat → ExecPair) :
    ∀ k i rem, k < rem →
      (∀ j, j < k → ∃ e, (exec (i + j)).2 = some e ∧ IsRetryable e = true) →
      ((exec (i + k)).2 = none ∨
        ∃ e, (exec (i + k)).2 = some e ∧ IsRetryable e = false) →
      retryLoop false name exec i rem = (exec (i + k), k + 1) := by
  intro k
  induction k with
  | zero =>
    intro i rem hrem _ hstop
    obtain ⟨rem2, rfl⟩ : ∃ rem2, rem = rem2 + 1 := ⟨rem - 1, by omega⟩
    simp only [Nat.add_zero] at hstop ⊢
    rcases hstop with hnone | ⟨e, he, hr⟩
    · rw [retryLoop.eq_def]
      dsimp only
      rw [hnone]
    · rw [retryLoop.eq_def]
      dsimp only
      rw [he]
      simp [hr]
  | succ k2 ih =>
    intro i rem hrem hpre hstop
    obtain ⟨rem2, rfl⟩ : ∃ rem2, rem = rem2 + 1 := ⟨rem - 1, by omega⟩
    obtain ⟨e, he, hr⟩ := hpre 0 (by omega)
    simp only [Nat.add_zero] at he
    obtain ⟨rem3, rfl⟩ : ∃ rem3, rem2 = rem3 + 1 := ⟨rem2 - 1, by omega⟩
    rw [retryLoop.eq_def]
    dsimp only
    rw [he]
    simp only [hr, if_true]
    rw [ih (i + 1) (rem3 + 1) (by omega)
      (fun j hj => by
        obtain ⟨e2, he2, hr2⟩ := hpre (j + 1) (by omega)
        exact ⟨e2, by rw [show i + 1 + j = i + (j + 1) from by omega]; exact he2, hr2⟩)
      (by
        rw [show i + 1 + k2 = i + (k2 + 1) from by omega]
        exact hstop)]
    rw [show i + 1 + k2 = i + (k2 + 1) from by omega]
    rfl

/-- C1: with maxRetries ≥ 0 and a live context, (a) a step that fails
retryably on every attempt is executed exactly maxRetries + 1 times and the
last attempt's pair — its error — is returned; (b) a step whose first attempt
fails non-retryably is executed exactly once and that error is returned
immediately; (c) a step that succeeds on attempt k after retryable failures
is executed exactly k + 1 times — no attempts follow a success. -/
theorem runWithRetry_attempt_counts (mr : Int) (hmr : 0 ≤ mr) (step : StepRM)
    (img : Option ImageData) :
    ((∀ j, ∃ e, (step.exec j img).2 = some e ∧ IsRetryable e = true) →
      runWithRetry mr false step img = (step.exec mr.toNat img, mr.toNat + 1)) ∧
    (∀ r e, step.exec 0 img = (r, some e) → IsRetryable e = false →
      runWithRetry mr false step img = ((r, some e), 1)) ∧
    (∀ k, k ≤ mr.toNat →
      (∀ j, j < k → ∃ e, (step.exec j img).2 = some e ∧ IsRetryable e = true) →
      (step.exec k img).2 = none →
      runWithRetry mr false step img = (step.exec k img, k + 1)) := by
  have hto : (mr + 1).toNat = mr.toNat + 1 := by omega
  refine ⟨?_, ?_, ?_⟩
  · intro hall
    unfold runWithRetry
    rw [hto]
    have := retryLoop_all_retryable step.name (fun j => step.exec j img) hall mr.toNat 0
    simpa using this
  · intro r e hexec hr
    unfold runWithRetry
    have := retryLoop_stops_at step.name (fun j => step.exec j img) 0 0 ((mr + 1).toNat)
      (by omega) (by omega)
      (Or.inr ⟨e, by simp [hexec], hr⟩)
    simpa [hexec] using this
  · intro k hk hpre hsucc
    unfold runWithRetry
    have := retryLoop_stops_at step.name (fun j => step.exec j img) k 0 ((mr + 1).toNat)
      (by omega)
      (fun j hj => by simpa using hpre j hj)
      (Or.inl (by simpa using hsucc))
    simpa using this

/-- Witness for C1: an always-transiently-failing step under maxRetries = 2
is executed exactly 3 times and the final error is returned. -/
theorem runWithRetry_attempt_counts_witness :
    0 ≤ (2 : Int) ∧
    runWithRetry 2 false stepAlwaysTransient none =
      ((none, some (ErrTransient "flaky" (.raw (.str "boom")))), 3) :=
  ⟨by decide,
   (runWithRetry_attempt_counts 2 (by decide) stepAlwaysTransient none).1
     (fun j => ⟨ErrTransient "flaky" (.raw (.str "boom")), rfl, rfl⟩)⟩

/-- Helper for C8: once the step loop is entered, it increments the processed
counter by exactly one when it returns successfully and the error counter by
exactly one when it aborts, never both. -/
theorem runSteps_counters (cfg : Config) (ctxDone : Bool) (steps : List StepRM) :
    ∀ cur,
      (∀ res, (runSteps cfg ctxDone steps cur).2 = .ok res →
        (runSteps cfg ctxDone steps cur).1 = (1, 0)) ∧
      (∀ e, (runSteps cfg ctxDone steps cur).2 = .error e →
        (runSteps cfg ctxDone steps cur).1 = (0, 1)) := by
  induction steps with
  | nil =>
    intro cur
    constructor
    · intro res _
      rfl
    · intro e h
      simp only [runSteps] at h
      cases h
  | cons step rest ih =>
    intro cur
    cases hc : ctxDone
    · subst hc
      simp only [runSteps, Bool.false_eq_true, if_false]
      cases hp : (runWithRetry cfg.MaxRetries false step cur).1.2 with
      | none =>
        exact ih _
      | some e =>
        constructor
        · intro res h
          cases h
        · intro e2 _
          trivial
    · subst hc
      simp only [runSteps, if_true]
      constructor
      · intro res h
        cases h
      · intro e2 _
        trivial

/-- C8 counterexample: two calls that return an error yet leave both counters
unchanged — the empty-step-list input error and a drain (ingestion) failure —
although the claim says every error increments the error counter by one. -/
theorem process_counters_cex :
    Process cfgLifeEx false ⟨.bytes [1, 2, 3], ""⟩ [] =
      ((0, 0), .error (ErrNew .pipeline "process" (.raw .emptyInput))) ∧
    Process { cfgLifeEx with MaxImageBytes := 2, ChunkSize := 1 } false
        ⟨.bytes [1, 2], ""⟩ [procNoopStep] =
      ((0, 0), .error (ErrWrap .decode "process.drain" (.raw .ioUnexpectedEOF))) :=
  ⟨rfl, rfl⟩

/-- C8 amended: a call rejected for an empty step list, or failed during
ingestion, returns its error without touching either counter; once the step
loop runs, a successful return increments the processed counter by exactly
one (error counter unchanged) and a failing return — a step error or a
cancellation noticed before a step — increments the error counter by exactly
one (processed counter unchanged), and the error is returned with no
result. -/
theorem process_counter_spec (cfg : Config) (ctxDone : Bool) (src : SourceM)
    (steps : List StepRM) :
    (steps = [] →
      Process cfg ctxDone src steps =
        ((0, 0), .error (ErrNew .pipeline "process" (.raw .emptyInput)))) ∧
    (∀ e, steps ≠ [] →
      DrainReader ctxDone (limitedReaderOf cfg src) cfg.ChunkSize = .error e →
      Process cfg ctxDone src steps =
        ((0, 0), .error (ErrWrap .decode "process.drain" e))) ∧
    (∀ bs, steps ≠ [] →
      DrainReader ctxDone (limitedReaderOf cfg src) cfg.ChunkSize = .ok bs →
      ((∀ res, (Process cfg ctxDone src steps).2 = .ok res →
         (Process cfg ctxDone src steps).1 = (1, 0)) ∧
       (∀ e, (Process cfg ctxDone src steps).2 = .error e →
         (Process cfg ctxDone src steps).1 = (0, 1)))) := by
  refine ⟨?_, ?_, ?_⟩
  · intro hnil
    subst hnil
    rfl
  · intro e hne hdrain
    have hemp : steps.isEmpty = false := by
      cases steps
      · exact absurd rfl hne
      · rfl
    simp only [Process, hemp, Bool.false_eq_true, if_false, hdrain]
  · intro bs hne hdrain
    have hemp : steps.isEmpty = false := by
      cases steps
      · exact absurd rfl hne
      · rfl
    simp only [Process, hemp, Bool.false_eq_true, if_false, hdrain]
    obtain ⟨hok, herr⟩ :=
      runSteps_counters cfg ctxDone steps (some (initImage src (CloneBytes bs)))
    rcases hrs2 : runSteps cfg ctxDone steps (some (initImage src (CloneBytes bs)))
      with ⟨d, r⟩
    rw [hrs2] at hok herr
    cases r with
    | error e =>
      constructor
      · intro res h
        cases h
      · intro e2 _
        exact herr e rfl
    | ok cur =>
      constructor
      · intro res _
        exact hok cur rfl
      · intro e2 h
        cases h

/-- Helper for C2: after the branch writes land in any order, slot i holds
branch i's value exactly when branch i exists and has completed, and
otherwise still holds its initial contents. -/
theorem batchFold_eq (cfg : Config) (ctxDone : Bool) (sources : List SourceM)
    (steps : List StepRM) :
    ∀ (order : List Nat) (m : Nat → Option (Except GoError ProcessingResultM)) (i : Nat),
      order.foldl (batchWrite cfg ctxDone sources steps) m i =
        (if i ∈ order ∧ i < sources.length
         then some (batchBranch cfg ctxDone sources steps i) else m i) := by
  intro order
  induction order with
  | nil =>
    intro m i
    simp
  | cons a l ih =>
    intro m i
    rw [List.foldl_cons, ih]
    by_cases hmem : i ∈ l ∧ i < sources.length
    · simp [hmem, List.mem_cons, hmem.1, hmem.2]
    · simp only [hmem, if_false]
      by_cases hia : i = a
      · subst hia
        by_cases hlen : i < sources.length
        · simp [batchWrite, hlen, List.mem_cons]
        · simp [batchWrite, hlen, List.mem_cons]
      · have hno : ¬ (i ∈ a :: l ∧ i < sources.length) := by
          intro hcon
          rcases List.mem_cons.mp hcon.1 with h1 | h1
          · exact hia h1
          · exact hmem ⟨h1, hcon.2⟩
        simp only [hno, if_false, batchWrite]
        by_cases halen : a < sources.length
        · simp [halen, hia]
        · simp [halen]

/-- C2: for every completion order covering all N branches (Batch's WaitGroup
joins every branch before returning, so the order is a permutation of the N
indices), slot i of the result area holds exactly the result/error pair of
running Process on source i — positional alignment independent of scheduling
— and in particular every valid slot is filled; slot i's contents are
determined by source i alone, so a failure at another index can neither
change nor empty it. -/
theorem batch_positional_alignment (cfg : Config) (ctxDone : Bool)
    (sources : List SourceM) (steps : List StepRM) (order : List Nat)
    (hperm : order.Perm (List.range sources.length)) :
    ∀ i s, sources[i]? = some s →
      BatchRun cfg ctxDone sources steps order i =
        some ((Process cfg ctxDone s steps).2) := by
  intro i s hs
  have hlen : i < sources.length := by
    by_contra hge
    rw [List.getElem?_eq_none (by omega)] at hs
    cases hs
  have hmem : i ∈ order := hperm.mem_iff.mpr (List.mem_range.mpr hlen)
  unfold BatchRun
  rw [batchFold_eq]
  simp only [hmem, hlen, and_self, if_true]
  unfold batchBranch
  have hgd : sources.getD i ⟨.bytes [], ""⟩ = s := by
    rw [List.getD_eq_getElem?_getD, hs]
    rfl
  rw [hgd]

/-- Witness for C2: two sources completing in reverse order still leave index
0 holding the Process output of source 0. -/
theorem batch_positional_alignment_witness :
    ([1, 0] : List Nat).Perm (List.range [srcExA, srcExB].length) ∧
    ([srcExA, srcExB][0]? = some srcExA) ∧
    BatchRun cfgLifeEx false [srcExA, srcExB] [procNoopStep] [1, 0] 0 =
      some ((Process cfgLifeEx false srcExA [procNoopStep]).2) :=
  ⟨by decide, rfl,
   batch_positional_alignment cfgLifeEx false [srcExA, srcExB] [procNoopStep] [1, 0]
     (by decide) 0 srcExA rfl⟩

/-- Witness for C8 amended: a one-noop-step call on a three-byte source
drains successfully and increments exactly the processed counter. -/
theorem process_counter_spec_witness :
    ([procNoopStep] : List StepRM) ≠ [] ∧
    DrainReader false (limitedReaderOf cfgLifeEx ⟨.bytes [1, 2, 3], ""⟩)
      cfgLifeEx.ChunkSize = .ok [1, 2, 3] ∧
    (Process cfgLifeEx false ⟨.bytes [1, 2, 3], ""⟩ [procNoopStep]).1 = (1, 0) :=
  ⟨List.cons_ne_nil _ _, rfl,
   ((process_counter_spec cfgLifeEx false ⟨.bytes [1, 2, 3], ""⟩ [procNoopStep]).2.2
     [1, 2, 3] (List.cons_ne_nil _ _) rfl).1
     { Primary := some (initImage ⟨.bytes [1, 2, 3], ""⟩ [1, 2, 3]) } rfl⟩

/-- Helper for C5: the adaptive quality loop over an encoder that never
fails, with a live context, tries exactly the candidates up to and including
the first hit — one Encode invocation per listed candidate — and reports the
bytes of the last candidate tried (none when the loop body never ran). -/
theorem adaptiveLoop_pure (f : Int → List Nat) (target minQ : Int) (stepM1 : Nat) :
    ∀ q, adaptiveLoop false (fun x => .ok (f x)) target minQ stepM1 q =
      (triedUntilHit (fun x => decide (((f x).length : Int) ≤ target))
         (qualityScan minQ stepM1 q),
       .ok ((triedUntilHit (fun x => decide (((f x).length : Int) ≤ target))
         (qualityScan minQ stepM1 q)).getLast?.map f)) := by
  have main : ∀ (n : Nat) (q : Int), (q + 1 - minQ).toNat = n →
      adaptiveLoop false (fun x => .ok (f x)) target minQ stepM1 q =
      (triedUntilHit (fun x => decide (((f x).length : Int) ≤ target))
         (qualityScan minQ stepM1 q),
       .ok ((triedUntilHit (fun x => decide (((f x).length : Int) ≤ target))
         (qualityScan minQ stepM1 q)).getLast?.map f)) := by
    intro n
    induction n using Nat.strong_induction_on with
    | _ n ihn =>
      intro q hq
      by_cases hge : minQ ≤ q
      · unfold adaptiveLoop qualityScan
        simp only [hge, dif_pos, Bool.false_eq_true, if_false]
        by_cases hhit : ((f q).length : Int) ≤ target
        · simp only [hhit, if_pos, triedUntilHit, decide_eq_true_eq]
          simp [hhit]
        · have hrec := ihn ((q - (stepM1 + 1)) + 1 - minQ).toNat (by omega)
            (q - (stepM1 + 1)) rfl
          simp only [hhit, if_neg, triedUntilHit]
          rw [hrec]
          simp only [hhit, decide_eq_true_eq, if_neg, if_false]
          cases h2 : triedUntilHit (fun x => decide (((f x).length : Int) ≤ target))
              (qualityScan minQ stepM1 (q - (stepM1 + 1))) with
          | nil => simp
          | cons b bs =>
            obtain ⟨x, hx⟩ : ∃ x, (b :: bs).getLast? = some x :=
              Option.isSome_iff_exists.mp (by simp [List.getLast?_isSome])
            rw [hx, List.getLast?_cons_cons, hx]
            rfl
      · unfold adaptiveLoop qualityScan
        simp [hge, triedUntilHit]
  intro q
  exact main ((q + 1 - minQ).toNat) q rfl

/-- C5: with a positive target, (a) a format without a registered encoder
makes the step an exact passthrough (same heap, same ImageData, no error);
(b) with a registered (never-failing) encoder, the step's scan invokes Encode
exactly once per candidate quality in compressTried — the downward scan from
MaxQuality in effStepSize decrements, cut at the first candidate meeting the
target or at the floor — and the step returns the bytes of the last candidate
tried as the result, even when they exceed the target. -/
theorem adaptiveCompress_spec (s : AdaptiveCompressStep) (h : Heap) (img : ImageData)
    (htarget : 0 < s.TargetSizeBytes) :
    (s.Registry img.Format = none → s.Execute false h img = (h, .ok img)) ∧
    (∀ f, s.Registry img.Format = some (pureEnc f) →
      ((adaptiveLoop false
          (fun q => pureEnc f false img { EncodeOptions.zero with Quality := q })
          s.TargetSizeBytes (effMinQ s) ((effStepSize s).toNat - 1) s.MaxQuality).1 =
        compressTried s f img ∧
       s.Execute false h img =
        (h, .ok { img with
          Data := compressBest s f img,
          Meta := { img.Meta with SizeBytes := (compressBest s f img).length } }))) := by
  constructor
  · intro hreg
    unfold AdaptiveCompressStep.Execute
    rw [if_neg (by omega), hreg]
  · intro f hreg
    have hfv := adaptiveLoop_pure
      (fun q => f img { EncodeOptions.zero with Quality := q })
      s.TargetSizeBytes (effMinQ s) ((effStepSize s).toNat - 1) s.MaxQuality
    constructor
    · simp only [pureEnc]
      rw [hfv]
      simp only [compressTried, compressHit]
      rfl
    · unfold AdaptiveCompressStep.Execute
      rw [if_neg (by omega), hreg]
      simp only [pureEnc]
      rw [hfv]
      simp only [compressBest, compressTried, compressHit]
      rfl

/-- Witness for C5: the passthrough case on an empty registry, and the scan
case on a ten-bytes-per-quality encoder with target 50 KB-like budget. -/
theorem adaptiveCompress_spec_witness :
    0 < acsNoneEx.TargetSizeBytes ∧
    acsNoneEx.Execute false ⟨[]⟩ imgJpegEx = (⟨[]⟩, .ok imgJpegEx) ∧
    (adaptiveLoop false
        (fun q => pureEnc encFnEx false imgJpegEx { EncodeOptions.zero with Quality := q })
        acsPureEx.TargetSizeBytes (effMinQ acsPureEx) ((effStepSize acsPureEx).toNat - 1)
        acsPureEx.MaxQuality).1 = compressTried acsPureEx encFnEx imgJpegEx ∧
    acsPureEx.Execute false ⟨[]⟩ imgJpegEx =
      (⟨[]⟩, .ok { imgJpegEx with
        Data := compressBest acsPureEx encFnEx imgJpegEx,
        Meta := { imgJpegEx.Meta with
          SizeBytes := (compressBest acsPureEx encFnEx imgJpegEx).length } }) :=
  ⟨by decide,
   (adaptiveCompress_spec acsNoneEx ⟨[]⟩ imgJpegEx (by decide)).1 rfl,
   ((adaptiveCompress_spec acsPureEx ⟨[]⟩ imgJpegEx (by decide)).2 encFnEx rfl).1,
   ((adaptiveCompress_spec acsPureEx ⟨[]⟩ imgJpegEx (by decide)).2 encFnEx rfl).2⟩

/-- Helper for C10: the decimal digit list of n is nonempty, all digits are
below ten, and recomposing its big-endian reading gives n back, provided the
fuel exceeds n. -/
theorem natDigits_spec : ∀ (fuel n : Nat), n < fuel →
    natDigitsRevF fuel n ≠ [] ∧ (∀ d ∈ natDigitsRevF fuel n, d < 10) ∧
    digitsToNat ((natDigitsRevF fuel n).reverse) = n := by
  intro fuel
  induction fuel with
  | zero =>
    intro n hn
    omega
  | succ fuel ih =>
    intro n hn
    by_cases hsmall : n < 10
    · refine ⟨by simp [natDigitsRevF, hsmall], ?_, ?_⟩
      · intro d hd
        simp [natDigitsRevF, hsmall] at hd
        omega
      · simp [natDigitsRevF, hsmall, digitsToNat]
    · have hdiv : n / 10 < fuel := by
        have h1 : n / 10 < n := Nat.div_lt_self (by omega) (by omega)
        omega
      obtain ⟨hne, hlt, hval⟩ := ih (n / 10) hdiv
      refine ⟨by simp [natDigitsRevF, hsmall], ?_, ?_⟩
      · intro d hd
        simp only [natDigitsRevF, hsmall, if_false, List.mem_cons] at hd
        rcases hd with hd | hd
        · omega
        · exact hlt d hd
      · simp only [natDigitsRevF, hsmall, if_false, List.reverse_cons]
        rw [digitsToNat, List.foldl_append]
        have hfold : List.foldl (fun a d => a * 10 + d) 0
            ((natDigitsRevF fuel (n / 10)).reverse) = n / 10 := hval
        rw [hfold]
        simp
        omega

/-- Helper for C10: scanning a digit character recovers its value. -/
theorem digitVal_digitChar : ∀ d, d < 10 → digitVal (digitChar d) = some d := by decide

/-- Helper for C10: a digit character is never the minus sign. -/
theorem digitChar_ne_minus : ∀ d, d < 10 → digitChar d ≠ '-' := by decide

/-- Helper for C10: a pure digit string is consumed whole by the digit
scanner. -/
theorem takeDigits_map (ds : List Nat) (hds : ∀ d ∈ ds, d < 10) :
    takeDigits (ds.map digitChar) = (ds, []) := by
  induction ds with
  | nil => rfl
  | cons d t ih =>
    simp only [List.map_cons, takeDigits]
    rw [digitVal_digitChar d (hds d (by simp))]
    rw [ih (fun x hx => hds x (by simp [hx]))]

/-- Helper for C10: Sscanf of an unsigned digit string. -/
theorem sscanf_digits (ds : List Nat) (hne : ds ≠ []) (hlt : ∀ d ∈ ds, d < 10) :
    sscanfD (String.mk (ds.map digitChar)) = (digitsToNat ds : Int) := by
  obtain ⟨c, cs, rfl⟩ := List.exists_cons_of_ne_nil hne
  simp only [List.map_cons, sscanfD]
  rw [if_neg (digitChar_ne_minus c (hlt c (by simp)))]
  rw [show (digitChar c :: cs.map digitChar) = (c :: cs).map digitChar from rfl]
  rw [takeDigits_map _ hlt]
  simp

/-- Helper for C10: Sscanf of a minus sign followed by digits. -/
theorem sscanf_neg_digits (ds : List Nat) (hne : ds ≠ []) (hlt : ∀ d ∈ ds, d < 10) :
    sscanfD (String.mk ('-' :: ds.map digitChar)) = -(digitsToNat ds : Int) := by
  obtain ⟨c, cs, rfl⟩ := List.exists_cons_of_ne_nil hne
  simp only [List.map_cons, sscanfD, if_pos rfl]
  rw [show (digitChar c :: cs.map digitChar) = (c :: cs).map digitChar from rfl]
  rw [takeDigits_map _ hlt]
  simp

/-- Helper for C10: scanning back a formatted integer recovers it — the
"%d" Sprintf/Sscanf roundtrip QualityStep and EncodeStep communicate
through. -/
theorem sscanfD_sprintfD (q : Int) : sscanfD (sprintfD q) = q := by
  by_cases hneg : q < 0
  · obtain ⟨hne, hlt, hval⟩ := natDigits_spec ((-q).toNat + 1) ((-q).toNat) (by omega)
    have hne2 : (natDigitsRev ((-q).toNat)).reverse ≠ [] := by
      simpa [natDigitsRev] using hne
    have hds : ∀ d ∈ (natDigitsRev ((-q).toNat)).reverse, d < 10 := by
      intro d hd
      exact hlt d (by simpa [natDigitsRev] using List.mem_reverse.mp hd)
    rw [sprintfD, if_pos hneg, sscanf_neg_digits _ hne2 hds]
    have hvv : digitsToNat ((natDigitsRev ((-q).toNat)).reverse) = (-q).toNat := by
      simpa [natDigitsRev] using hval
    rw [hvv]
    omega
  · obtain ⟨hne, hlt, hval⟩ := natDigits_spec (q.toNat + 1) (q.toNat) (by omega)
    have hne2 : (natDigitsRev (q.toNat)).reverse ≠ [] := by
      simpa [natDigitsRev] using hne
    have hds : ∀ d ∈ (natDigitsRev (q.toNat)).reverse, d < 10 := by
      intro d hd
      exact hlt d (by simpa [natDigitsRev] using List.mem_reverse.mp hd)
    rw [sprintfD, if_neg hneg, sscanf_digits _ hne2 hds]
    have hvv : digitsToNat ((natDigitsRev (q.toNat)).reverse) = q.toNat := by
      simpa [natDigitsRev] using hval
    rw [hvv]
    omega

/-- Helper for C10: overwriting an existing key makes it the lookup result. -/
theorem exifLookup_map_overwrite (k v : String) :
    ∀ m : ExifMap, m.any (fun p => p.1 = k) = true →
      exifLookup (m.map (fun p => if p.1 = k then (k, v) else p)) k = some v := by
  intro m
  induction m with
  | nil => simp
  | cons p t ih =>
    intro hany
    by_cases hpk : p.1 = k
    · simp only [List.map_cons, if_pos hpk, exifLookup]
      rw [List.find?_cons_of_pos _ (by simp)]
      rfl
    · have ht : t.any (fun x => x.1 = k) = true := by
        simpa [hpk] using hany
      simp only [List.map_cons, if_neg hpk, exifLookup]
      rw [List.find?_cons_of_neg _ (by simp [hpk])]
      exact ih ht

/-- Helper for C10: appending a fresh key makes it the lookup result. -/
theorem exifLookup_append_new (k v : String) :
    ∀ m : ExifMap, m.any (fun p => p.1 = k) = false →
      exifLookup (m ++ [(k, v)]) k = some v := by
  intro m
  induction m with
  | nil =>
    simp only [List.nil_append, exifLookup]
    rw [List.find?_cons_of_pos _ (by simp)]
    intro _
    rfl
  | cons p t ih =>
    intro hany
    have hpk : ¬ p.1 = k := by
      intro hcon
      simp [hcon] at hany
    have ht : t.any (fun x => x.1 = k) = false := by
      simpa [hpk] using hany
    simp only [List.cons_append, exifLookup]
    rw [List.find?_cons_of_neg _ (by simp [hpk])]
    exact ih ht

/-- Helper for C10: a Go map write makes the written value the lookup
result. -/
theorem exifLookup_insert (m : ExifMap) (k v : String) :
    exifLookup (exifInsert m k v) k = some v := by
  unfold exifInsert
  by_cases hany : m.any (fun p => p.1 = k) = true
  · rw [if_pos hany]
    exact exifLookup_map_overwrite k v m hany
  · rw [if_neg hany]
    simp only [Bool.not_eq_true] at hany
    exact exifLookup_append_new k v m hany

/-- Helper for C10: setting a live slot makes its contents the read
result. -/
theorem getD_set_self : ∀ (l : List ExifMap) (r : Nat) (m : ExifMap), r < l.length →
    (l.set r m).getD r [] = m := by
  intro l
  induction l with
  | nil =>
    intro r m hr
    simp at hr
  | cons x t ih =>
    intro r m hr
    cases r with
    | zero => rfl
    | succ r2 =>
      simp only [List.set_cons_succ, List.getD_cons_succ]
      exact ih r2 m (by simpa using hr)

/-- Helper for C10: writing a live map through the heap and reading it back
through the same reference yields the written contents. -/
theorem heap_get_set (h : Heap) (r : Nat) (m : ExifMap) (hr : r < h.maps.length) :
    (h.set r m).get r = m :=
  getD_set_self h.maps r m hr

/-- C10: EncodeStep reads the encode quality from the "_quality" EXIF tag:
with no EXIF map, or with the key absent, BaseOptions reach the encoder
unmodified; after a QualityStep with quality q (whose EXIF references, when
present, point at live maps), the encoder is invoked with BaseOptions whose
Quality has been overridden to q — the metadata side channel between the two
steps. -/
theorem encode_quality_override (reg : RegistryM) (base : EncodeOptions)
    (ctxDone : Bool) (h : Heap) (img : ImageData)
    (f : ImageData → EncodeOptions → List Nat)
    (hreg : reg img.Format = some (pureEnc f)) :
    (img.Meta.EXIF = none →
      EncodeStep.Execute ⟨reg, base⟩ ctxDone h img =
        (h, .ok { img with
          Data := f img base,
          Meta := { img.Meta with SizeBytes := (f img base).length } })) ∧
    (∀ r, img.Meta.EXIF = some r → exifLookup (h.get r) "_quality" = none →
      EncodeStep.Execute ⟨reg, base⟩ ctxDone h img =
        (h, .ok { img with
          Data := f img base,
          Meta := { img.Meta with SizeBytes := (f img base).length } })) ∧
    (∀ q h2 img2, (∀ r, img.Meta.EXIF = some r → r < h.maps.length) →
      QualityStep.Execute ⟨q⟩ ctxDone h img = (h2, .ok img2) →
      EncodeStep.Execute ⟨reg, base⟩ ctxDone h2 img2 =
        (h2, .ok { img2 with
          Data := f img2 { base with Quality := q },
          Meta := { img2.Meta with
            SizeBytes := (f img2 { base with Quality := q }).length } })) := by
  refine ⟨?_, ?_, ?_⟩
  · intro hnone
    unfold EncodeStep.Execute
    dsimp only
    rw [hreg, hnone]
    simp only [pureEnc]
  · intro r hsome hlook
    unfold EncodeStep.Execute
    dsimp only
    rw [hreg, hsome]
    dsimp only
    rw [hlook]
    simp only [pureEnc]
  · intro q h2 img2 hvalid hqstep
    cases hexif : img.Meta.EXIF with
    | none =>
      unfold QualityStep.Execute at hqstep
      rw [hexif] at hqstep
      injection hqstep with hh2 hok
      injection hok with himg2
      subst hh2
      subst himg2
      unfold EncodeStep.Execute
      dsimp only
      rw [hreg]
      dsimp only
      have hget : ((h.alloc []).1.set (h.alloc []).2
          (exifInsert [] "_quality" (sprintfD q))).get (h.alloc []).2 =
          exifInsert [] "_quality" (sprintfD q) :=
        heap_get_set _ _ _ (by simp [Heap.alloc])
      rw [hget, exifLookup_insert]
      dsimp only
      rw [sscanfD_sprintfD]
      simp only [pureEnc]
    | some r =>
      unfold QualityStep.Execute at hqstep
      rw [hexif] at hqstep
      injection hqstep with hh2 hok
      injection hok with himg2
      subst hh2
      subst himg2
      unfold EncodeStep.Execute
      dsimp only
      rw [hreg]
      dsimp only
      rw [hexif]
      dsimp only
      rw [heap_get_set _ _ _ (hvalid r hexif), exifLookup_insert]
      dsimp only
      rw [sscanfD_sprintfD]
      simp only [pureEnc]

/-- Witness for C10: with no EXIF map the base options pass through; after
QualityStep 77 the encoder sees Quality 77. -/
theorem encode_quality_override_witness :
    regJpegEx imgJpegEx.Format = some (pureEnc encFnEx) ∧
    imgJpegEx.Meta.EXIF = none ∧
    EncodeStep.Execute ⟨regJpegEx, EncodeOptions.zero⟩ false ⟨[]⟩ imgJpegEx =
      (⟨[]⟩, .ok { imgJpegEx with
        Data := encFnEx imgJpegEx EncodeOptions.zero,
        Meta := { imgJpegEx.Meta with
          SizeBytes := (encFnEx imgJpegEx EncodeOptions.zero).length } }) ∧
    QualityStep.Execute ⟨77⟩ false ⟨[]⟩ imgJpegEx =
      (⟨[[("_quality", sprintfD 77)]]⟩,
       .ok { imgJpegEx with Meta := { imgJpegEx.Meta with EXIF := some 0 } }) ∧
    EncodeStep.Execute ⟨regJpegEx, EncodeOptions.zero⟩ false
        ⟨[[("_quality", sprintfD 77)]]⟩
        { imgJpegEx with Meta := { imgJpegEx.Meta with EXIF := some 0 } } =
      (⟨[[("_quality", sprintfD 77)]]⟩,
       .ok { { imgJpegEx with Meta := { imgJpegEx.Meta with EXIF := some 0 } } with
         Data := encFnEx
           { imgJpegEx with Meta := { imgJpegEx.Meta with EXIF := some 0 } }
           { EncodeOptions.zero with Quality := 77 },
         Meta := { { imgJpegEx.Meta with EXIF := some 0 } with
           SizeBytes := (encFnEx
             { imgJpegEx with Meta := { imgJpegEx.Meta with EXIF := some 0 } }
             { EncodeOptions.zero with Quality := 77 }).length } }) :=
  ⟨rfl, rfl,
   (encode_quality_override regJpegEx EncodeOptions.zero false ⟨[]⟩ imgJpegEx
     encFnEx rfl).1 rfl,
   rfl,
   (encode_quality_override regJpegEx EncodeOptions.zero false ⟨[]⟩ imgJpegEx
     encFnEx rfl).2.2 77 ⟨[[("_quality", sprintfD 77)]]⟩
     { imgJpegEx with Meta := { imgJpegEx.Meta with EXIF := some 0 } }
     (fun _ hr => Option.noConfusion hr) rfl⟩

end ImageProc
